import Mathlib

/-!
# Verification of the httpx request-binding pipeline

A shallow embedding of the binding core of the `httpx` Go package:
the binder orchestrator (`Bind` in `binder.go`), the struct-metadata
descriptor cache (`getStructMeta`), the built-in binders (Path, Query,
JSON, Form, ClientAuth) and the request-pipeline error dispatch
(`prepare` in `httpx.go`).  Go structs are modelled per destination
type; machine-level concerns (reflection plumbing, I/O) are modelled
by explicit data.
-/

namespace Httpx

/-! ## Binder interface and orchestrator (`binder.go`) -/

/-- `BinderType` from `binder.go`: `BinderMeta` (Query, Header, Path)
vs `BinderBody` (JSON, XML, Form — mutually exclusive). -/
inductive BinderType where
  | BinderMeta : BinderType
  | BinderBody : BinderType
deriving DecidableEq, Repr

export BinderType (BinderMeta BinderBody)

/-- The `Binder` interface: `Name()`, `Type()`, `Match(r)`, `Bind(r, v)`.
`ρ` is the request type, `σ` the destination-record type; `Bind`
returns the updated record or an error message (Go mutates `v` in
place and returns `error`). -/
structure BinderI (ρ σ : Type) where
  Name : String
  type : BinderType
  Match : ρ → Bool
  Bind : ρ → σ → Except String σ

/-- The loop body of `Bind` (`binder.go` lines 180–196), with the
`bodyBound` flag threaded explicitly: skip non-matching binders, skip
Body-kind binders once `bodyBound` is set, abort on the first error. -/
def bindLoop (r : ρ) : List (BinderI ρ σ) → Bool → σ → Except String σ
  | [], _, v => .ok v
  | b :: rest, bodyBound, v =>
    if b.Match r then
      if b.type = BinderBody ∧ bodyBound then
        bindLoop r rest bodyBound v
      else
        match b.Bind r v with
        | .error e => .error e
        | .ok v' => bindLoop r rest (bodyBound || decide (b.type = BinderBody)) v'
    else
      bindLoop r rest bodyBound v

/-- `Bind(r, v, binders...)` from `binder.go`: when no binders are
passed, the package-global default chain `Binders` is used
(`defaults` models that global). -/
def Bind (defaults : List (BinderI ρ σ)) (r : ρ) (v : σ) (binders : List (BinderI ρ σ)) :
    Except String σ :=
  let binders := if binders.isEmpty then defaults else binders
  bindLoop r binders false v

/-- Ghost-instrumented version of `bindLoop`: additionally returns the
list of binders whose `Bind` method was actually invoked, in order.
`bindTrace_snd` proves it computes the same result as `bindLoop`. -/
def bindTrace (r : ρ) : List (BinderI ρ σ) → Bool → σ →
    List (BinderI ρ σ) × Except String σ
  | [], _, v => ([], .ok v)
  | b :: rest, bodyBound, v =>
    if b.Match r then
      if b.type = BinderBody ∧ bodyBound then
        bindTrace r rest bodyBound v
      else
        match b.Bind r v with
        | .error e => ([b], .error e)
        | .ok v' =>
          let (t, res) := bindTrace r rest (bodyBound || decide (b.type = BinderBody)) v'
          (b :: t, res)
    else
      bindTrace r rest bodyBound v

theorem bindTrace_cons_not_match {b : BinderI ρ σ} (rest : List (BinderI ρ σ))
    (bb : Bool) (v : σ) (hm : b.Match r = false) :
    bindTrace r (b :: rest) bb v = bindTrace r rest bb v := by
  simp [bindTrace, hm]

theorem bindTrace_cons_skip {b : BinderI ρ σ} (rest : List (BinderI ρ σ))
    (v : σ) (hm : b.Match r = true) (hbody : b.type = BinderBody) :
    bindTrace r (b :: rest) true v = bindTrace r rest true v := by
  simp [bindTrace, hm, hbody]

theorem bindTrace_cons_err {b : BinderI ρ σ} (rest : List (BinderI ρ σ))
    (bb : Bool) (v : σ) (e : String) (hm : b.Match r = true)
    (hskip : ¬(b.type = BinderBody ∧ bb = true)) (hb : b.Bind r v = .error e) :
    bindTrace r (b :: rest) bb v = ([b], .error e) := by
  simp [bindTrace, hm, hskip, hb]

theorem bindTrace_cons_ok {b : BinderI ρ σ} (rest : List (BinderI ρ σ))
    (bb : Bool) (v v' : σ) (hm : b.Match r = true)
    (hskip : ¬(b.type = BinderBody ∧ bb = true)) (hb : b.Bind r v = .ok v') :
    bindTrace r (b :: rest) bb v =
      (b :: (bindTrace r rest (bb || decide (b.type = BinderBody)) v').1,
        (bindTrace r rest (bb || decide (b.type = BinderBody)) v').2) := by
  simp [bindTrace, hm, hskip, hb]

theorem bindTrace_snd (r : ρ) (bs : List (BinderI ρ σ)) (bb : Bool) (v : σ) :
    (bindTrace r bs bb v).2 = bindLoop r bs bb v := by
  induction bs generalizing bb v with
  | nil => rfl
  | cons b rest ih =>
    by_cases hm : b.Match r
    · by_cases hskip : b.type = BinderBody ∧ bb = true
      · have hbb : bb = true := hskip.2
        subst hbb
        rw [bindTrace_cons_skip rest v hm hskip.1]
        have hl : bindLoop r (b :: rest) true v = bindLoop r rest true v := by
          simp [bindLoop, hm, hskip.1]
        rw [hl]
        exact ih true v
      · cases hb : b.Bind r v with
        | error e =>
          rw [bindTrace_cons_err rest bb v e hm hskip hb]
          simp [bindLoop, hm, hskip, hb]
        | ok v' =>
          rw [bindTrace_cons_ok rest bb v v' hm hskip hb]
          simp only [bindLoop, hm, if_true, if_neg hskip, hb]
          exact ih _ v'
    · have hm' : b.Match r = false := by simpa using hm
      rw [bindTrace_cons_not_match rest bb v hm']
      simp only [bindLoop, hm', Bool.false_eq_true, if_false]
      exact ih bb v

/-- Once `bodyBound` is set, no Body-kind binder is ever executed;
starting from `bodyBound = false`, at most one is. -/
theorem bindTrace_body_count (r : ρ) (bs : List (BinderI ρ σ)) (bb : Bool) (v : σ) :
    (bindTrace r bs bb v).1.countP (fun b => decide (b.type = BinderBody))
      + (if bb then 1 else 0) ≤ 1 := by
  induction bs generalizing bb v with
  | nil => cases bb <;> simp [bindTrace]
  | cons b rest ih =>
    by_cases hm : b.Match r
    · by_cases hskip : b.type = BinderBody ∧ bb = true
      · have hbb : bb = true := hskip.2
        subst hbb
        rw [bindTrace_cons_skip rest v hm hskip.1]
        exact ih true v
      · cases hb : b.Bind r v with
        | error e =>
          rw [bindTrace_cons_err rest bb v e hm hskip hb]
          by_cases hbody : b.type = BinderBody
          · have hbb : bb = false := by
              cases bb
              · rfl
              · exact absurd ⟨hbody, rfl⟩ hskip
            subst hbb
            simp [List.countP_cons, hbody]
          · cases bb <;> simp [List.countP_cons, hbody]
        | ok v' =>
          rw [bindTrace_cons_ok rest bb v v' hm hskip hb]
          have h := ih (bb || decide (b.type = BinderBody)) v'
          by_cases hbody : b.type = BinderBody
          · have hbb : bb = false := by
              cases bb
              · rfl
              · exact absurd ⟨hbody, rfl⟩ hskip
            subst hbb
            simpa [List.countP_cons, hbody] using h
          · cases bb <;> simpa [List.countP_cons, hbody] using h
    · have hm' : b.Match r = false := by simpa using hm
      rw [bindTrace_cons_not_match rest bb v hm']
      exact ih bb v

/-- When the orchestrator completes without error, the executed
Metadata-kind binders are exactly the matching Metadata-kind binders
of the list, in order. -/
theorem bindTrace_meta_all (r : ρ) (bs : List (BinderI ρ σ)) (bb : Bool) (v : σ)
    (hok : ((bindTrace r bs bb v).2).isOk = true) :
    (bindTrace r bs bb v).1.filter (fun b => decide (b.type = BinderMeta))
      = bs.filter (fun b => b.Match r && decide (b.type = BinderMeta)) := by
  induction bs generalizing bb v with
  | nil => simp [bindTrace]
  | cons b rest ih =>
    by_cases hm : b.Match r
    · by_cases hskip : b.type = BinderBody ∧ bb = true
      · have hbb : bb = true := hskip.2
        subst hbb
        rw [bindTrace_cons_skip rest v hm hskip.1] at hok ⊢
        have hnm : ¬ (b.type = BinderMeta) := by simp [hskip.1]
        simp only [List.filter_cons, hm, hnm]
        simpa using ih true v hok
      · cases hb : b.Bind r v with
        | error e =>
          rw [bindTrace_cons_err rest bb v e hm hskip hb] at hok
          simp [Except.isOk, Except.toBool] at hok
        | ok v' =>
          rw [bindTrace_cons_ok rest bb v v' hm hskip hb] at hok ⊢
          simp only [List.filter_cons, hm]
          have hrest := ih (bb || decide (b.type = BinderBody)) v' (by simpa using hok)
          by_cases hmeta : b.type = BinderMeta
          · simp only [hmeta, Bool.true_and]
            simpa [hmeta] using hrest
          · simp only [hmeta, Bool.true_and]
            simpa [hmeta] using hrest
    · have hm' : b.Match r = false := by simpa using hm
      rw [bindTrace_cons_not_match rest bb v hm'] at hok ⊢
      simp only [List.filter_cons, hm', Bool.false_and]
      simpa using ih bb v hok

/-- When the orchestrator completes without error, the executed
Body-kind binders are: none if `bodyBound` was already set, otherwise
exactly the first matching Body-kind binder (if any). -/
theorem bindTrace_body_first (r : ρ) (bs : List (BinderI ρ σ)) (bb : Bool) (v : σ)
    (hok : ((bindTrace r bs bb v).2).isOk = true) :
    (bindTrace r bs bb v).1.filter (fun b => decide (b.type = BinderBody))
      = if bb then []
        else (bs.filter (fun b => b.Match r && decide (b.type = BinderBody))).take 1 := by
  induction bs generalizing bb v with
  | nil => cases bb <;> simp [bindTrace]
  | cons b rest ih =>
    by_cases hm : b.Match r
    · by_cases hskip : b.type = BinderBody ∧ bb = true
      · have hbb : bb = true := hskip.2
        subst hbb
        rw [bindTrace_cons_skip rest v hm hskip.1] at hok ⊢
        simpa using ih true v hok
      · cases hb : b.Bind r v with
        | error e =>
          rw [bindTrace_cons_err rest bb v e hm hskip hb] at hok
          simp [Except.isOk, Except.toBool] at hok
        | ok v' =>
          rw [bindTrace_cons_ok rest bb v v' hm hskip hb] at hok ⊢
          simp only [List.filter_cons, hm]
          by_cases hbody : b.type = BinderBody
          · have hbb : bb = false := by
              cases bb
              · rfl
              · exact absurd ⟨hbody, rfl⟩ hskip
            subst hbb
            have hrest := ih (false || decide (b.type = BinderBody)) v' (by simpa using hok)
            simp only [hbody] at hrest ⊢
            simpa using hrest
          · have hrest := ih (bb || decide (b.type = BinderBody)) v' (by simpa using hok)
            simp only [hbody] at hrest ⊢
            simpa using hrest
    · have hm' : b.Match r = false := by simpa using hm
      rw [bindTrace_cons_not_match rest bb v hm'] at hok ⊢
      simp only [List.filter_cons, hm', Bool.false_and]
      simpa using ih bb v hok

/-- Running the orchestrator over a concatenated binder list: if the
first part errors, the second never runs; otherwise the second part
runs with the `bodyBound` flag reflecting whether the first part
executed any Body-kind binder. -/
theorem bindTrace_append (r : ρ) (l₁ l₂ : List (BinderI ρ σ)) (bb : Bool) (v : σ) :
    bindTrace r (l₁ ++ l₂) bb v =
      match bindTrace r l₁ bb v with
      | (t, .error e) => (t, .error e)
      | (t, .ok v') =>
        let (t₂, res) :=
          bindTrace r l₂ (bb || t.any (fun b => decide (b.type = BinderBody))) v'
        (t ++ t₂, res) := by
  induction l₁ generalizing bb v with
  | nil => simp [bindTrace]
  | cons b rest ih =>
    by_cases hm : b.Match r
    · by_cases hskip : b.type = BinderBody ∧ bb = true
      · have hbb : bb = true := hskip.2
        subst hbb
        rw [List.cons_append, bindTrace_cons_skip (rest ++ l₂) v hm hskip.1,
          bindTrace_cons_skip rest v hm hskip.1]
        exact ih true v
      · cases hb : b.Bind r v with
        | error e =>
          rw [List.cons_append, bindTrace_cons_err (rest ++ l₂) bb v e hm hskip hb,
            bindTrace_cons_err rest bb v e hm hskip hb]
        | ok v' =>
          rw [List.cons_append, bindTrace_cons_ok (rest ++ l₂) bb v v' hm hskip hb,
            bindTrace_cons_ok rest bb v v' hm hskip hb]
          rw [ih (bb || decide (b.type = BinderBody)) v']
          cases hr : bindTrace r rest (bb || decide (b.type = BinderBody)) v' with
          | mk t res =>
            cases res with
            | error e => simp [List.any_cons, Bool.or_assoc]
            | ok v'' => simp [List.any_cons, Bool.or_assoc]
    · have hm' : b.Match r = false := by simpa using hm
      rw [List.cons_append, bindTrace_cons_not_match (rest ++ l₂) bb v hm',
        bindTrace_cons_not_match rest bb v hm']
      exact ih bb v

/-! ## String utilities

Structural-recursion replacements for the Go standard-library string
helpers used by the binding code, written over `List Char` so they
evaluate by kernel reduction. -/

/-- Truncate a tag value at the first comma:
`if idx := strings.Index(mapKey, ","); idx != -1 { mapKey = mapKey[:idx] }`. -/
def truncCommaL : List Char → List Char
  | [] => []
  | c :: cs => if c = ',' then [] else c :: truncCommaL cs

def truncComma (s : String) : String := ⟨truncCommaL s.data⟩

/-- `strings.HasPrefix` on character lists. -/
def startsWithL : List Char → List Char → Bool
  | [], _ => true
  | _ :: _, [] => false
  | p :: ps, c :: cs => p = c && startsWithL ps cs

/-- `strings.HasPrefix(s, p)`. -/
def strStarts (s p : String) : Bool := startsWithL p.data s.data

/-- Split a character list on a separator character (used to model
`url.ParseQuery` splitting on `&` and `=`). -/
def splitListOn (sep : Char) : List Char → List (List Char)
  | [] => [[]]
  | c :: cs =>
    let r := splitListOn sep cs
    if c = sep then [] :: r
    else
      match r with
      | [] => [[c]]
      | g :: gs => (c :: g) :: gs

/-- One `key=value` query component. A component without `=` maps to
key with empty value, as in `net/url`. Percent-decoding is not
modelled (no input in this development contains escapes). -/
def queryPair (cs : List Char) : String × List String :=
  let k := cs.takeWhile (fun c => !(c = '='))
  let v := (cs.dropWhile (fun c => !(c = '='))).drop 1
  (⟨k⟩, [⟨v⟩])

/-- `r.URL.Query()`: the query string parsed into an ordered
key → values multimap. -/
def parseQuery (s : String) : List (String × List String) :=
  if s = "" then []
  else (splitListOn '&' s.data).map queryPair

/-- All values carried by a key in a multimap (values of repeated
entries concatenate in order, as in `url.Values`). -/
def formGet (m : List (String × List String)) (k : String) : List String :=
  (m.filter (fun p => p.1 = k)).flatMap (fun p => p.2)

/-- `strconv.ParseInt`-style base-10 integer syntax on digits. -/
def digitsToNat : List Char → Option Nat
  | [] => none
  | cs => go cs 0
where
  go : List Char → Nat → Option Nat
    | [], acc => some acc
    | c :: cs, acc =>
      if c.isDigit then go cs (acc * 10 + (c.toNat - '0'.toNat))
      else none

/-- The string→int conversion performed by the schema decoder for an
`int`-typed field (sign, then decimal digits; anything else fails). -/
def parseGoInt (s : String) : Option Int :=
  match s.data with
  | '-' :: cs => (digitsToNat cs).map (fun n => -(n : Int))
  | '+' :: cs => (digitsToNat cs).map (fun n => (n : Int))
  | cs => (digitsToNat cs).map (fun n => (n : Int))

/-! ## Struct metadata (`binder.go`: `structMeta`, `getStructMeta`) -/

/-- The Go field types the metadata pass distinguishes. -/
inductive FieldTy where
  | tstring : FieldTy
  | tint : FieldTy
  | tfileHeader : FieldTy          -- `*multipart.FileHeader`
  | tfileHeaderSlice : FieldTy     -- `[]*multipart.FileHeader`
  | tother : FieldTy
deriving DecidableEq, Repr

/-- One declared struct field of a destination type: its Go name, its
`form`/`json`/`path` tag values (empty string = tag absent) and its
type. -/
structure FieldSpec where
  fname : String
  formTag : String
  jsonTag : String
  pathTag : String
  exported : Bool
  ftype : FieldTy
deriving DecidableEq, Repr

/-- `pathFieldInfo` from `binder.go`. -/
structure PathFieldInfo where
  fieldIdx : Nat
  pathKey : String
  schemaKey : String
deriving DecidableEq, Repr

/-- `fileFieldInfo` from `binder.go`. -/
structure FileFieldInfo where
  fieldIdx : Nat
  formKey : String
  isSlice : Bool
deriving DecidableEq, Repr

/-- `structMeta` from `binder.go`; `clientIDIdx`/`clientSecretIdx`
use `-1` for "absent", as in the source. -/
structure StructMeta where
  pathFields : List PathFieldInfo
  fileFields : List FileFieldInfo
  clientIDIdx : Int
  clientSecretIdx : Int
  formKeys : List String
deriving DecidableEq, Repr

/-- The freshly-initialised metadata value (`clientIDIdx = -1`,
`clientSecretIdx = -1`, everything else empty). -/
def emptyMeta : StructMeta := ⟨[], [], -1, -1, []⟩

/-- The body of the per-field loop of `getStructMeta`
(`binder.go` lines 80–142), processing the field at index `i`: skip
unexported fields; `mapKey` is the form tag truncated at the first
comma, a bare `-` skips the field, an empty value falls back to the
json tag (truncated) and then to the field name; then each descriptor
component is extended exactly as the corresponding source line does
(the client-id/secret indices only when still `-1` and the field is a
string, `pathFields` when a `path` tag is present, `fileFields` from
the field's type, `formKeys` always). -/
def parseFieldStep (i : Nat) (f : FieldSpec) (meta : StructMeta) : StructMeta :=
  if !f.exported then meta
  else
    let mapKey := truncComma f.formTag
    if mapKey = "-" then meta
    else
      let mapKey := if mapKey = "" then truncComma f.jsonTag else mapKey
      let mapKey := if mapKey = "" then f.fname else mapKey
      { pathFields :=
          if f.pathTag ≠ "" then meta.pathFields ++ [⟨i, f.pathTag, mapKey⟩]
          else meta.pathFields
        fileFields :=
          match f.ftype with
          | .tfileHeader => meta.fileFields ++ [⟨i, mapKey, false⟩]
          | .tfileHeaderSlice => meta.fileFields ++ [⟨i, mapKey, true⟩]
          | _ => meta.fileFields
        clientIDIdx :=
          if meta.clientIDIdx = -1 ∧ mapKey = "client_id" ∧ f.ftype = .tstring then (i : Int)
          else meta.clientIDIdx
        clientSecretIdx :=
          if meta.clientSecretIdx = -1 ∧ mapKey = "client_secret" ∧ f.ftype = .tstring then (i : Int)
          else meta.clientSecretIdx
        formKeys := meta.formKeys ++ [mapKey] }

/-- The field loop of `getStructMeta`, from field index `i`. -/
def parseFieldsAux (i : Nat) (meta : StructMeta) : List FieldSpec → StructMeta
  | [] => meta
  | f :: rest => parseFieldsAux (i + 1) (parseFieldStep i f meta) rest

/-- Metadata analysis of a struct's field list: the slow path of
`getStructMeta` (`binder.go` lines 73–143). -/
def parseFields (fs : List FieldSpec) : StructMeta := parseFieldsAux 0 emptyMeta fs

/-! ### Spec-side key resolution (for comparison with `parseFields`)

`resolvedKey` and `specPathFields` follow the spec's words (form tag
first comma-segment if non-empty, else json tag first comma-segment if
non-empty, else the declared field name); `fieldIncluded` states the
code's actual exclusion rule. -/

/-- The spec's precedence: binding-specific annotation → generic
payload annotation → declared name, each truncated at the first comma. -/
def resolvedKey (f : FieldSpec) : String :=
  let k := truncComma f.formTag
  if k ≠ "" then k
  else
    let j := truncComma f.jsonTag
    if j ≠ "" then j else f.fname

/-- A field enters the descriptor iff it is exported and its *form*
tag's first comma-segment is not the ignore marker `-`. -/
def fieldIncluded (f : FieldSpec) : Bool :=
  f.exported && !(truncComma f.formTag = "-")

/-- Spec-side description of the `pathFields` component: each included
field with a non-empty `path` tag, under its resolved key, at its
declared index. -/
def specPathFields (i : Nat) : List FieldSpec → List PathFieldInfo
  | [] => []
  | f :: rest =>
    (if fieldIncluded f && !(f.pathTag = "") then [⟨i, f.pathTag, resolvedKey f⟩] else [])
      ++ specPathFields (i + 1) rest

/-! ## The type-metadata cache (`metaCache`, `getStructMeta`) -/

/-- A destination type as `getStructMeta` sees it: possibly a pointer
(dereferenced once, as in the source), and either a struct with a
field list or a non-struct type. -/
structure GoType where
  isPtr : Bool
  fields : Option (List FieldSpec)
deriving DecidableEq, Repr

/-- `t.Elem()` for a pointer type (the pointee keeps the field list). -/
def derefGoType (t : GoType) : GoType :=
  if t.isPtr then { t with isPtr := false } else t

/-- The metadata `getStructMeta` computes for a (dereferenced) type:
the parsed field list for a struct, the initialised-only value
otherwise. -/
def metaOf (t : GoType) : StructMeta :=
  match t.fields with
  | some fs => parseFields fs
  | none => emptyMeta

/-- The cache state of `metaCache` (an `xsync.Map` keyed by
`reflect.Type`), modelled as an association list. -/
abbrev MetaCache := List (GoType × StructMeta)

/-- `metaCache.Load(t)`. -/
def cacheLoad (c : MetaCache) (t : GoType) : Option StructMeta :=
  (List.find? (fun p => p.1 = t) c).map (fun p => p.2)

/-- `metaCache.LoadOrStore(t, meta)`: returns the value already stored
if present (discarding `meta`), otherwise stores and returns `meta`. -/
def cacheLoadOrStore (c : MetaCache) (t : GoType) (meta : StructMeta) :
    StructMeta × MetaCache :=
  match cacheLoad c t with
  | some v => (v, c)
  | none => (meta, (t, meta) :: c)

/-- `getStructMeta` (`binder.go` lines 61–148), with the shared cache
threaded explicitly: dereference a pointer type, try the fast path,
otherwise parse the struct (pure computation with no lock held) and
store-if-absent. -/
def getStructMeta (c : MetaCache) (t₀ : GoType) : StructMeta × MetaCache :=
  let t := if t₀.isPtr then derefGoType t₀ else t₀
  match cacheLoad c t with
  | some v => (v, c)
  | none =>
    let meta :=
      match t.fields with
      | some fs => parseFields fs
      | none => emptyMeta
    cacheLoadOrStore c t meta

/-- Cache coherence: every stored entry is the pure analysis of its
key. Holds for the empty cache and is preserved by every operation. -/
def cacheCoherent (c : MetaCache) : Prop :=
  ∀ p ∈ c, p.2 = metaOf p.1

theorem cacheLoad_coherent {c : MetaCache} {t : GoType} {m : StructMeta}
    (hc : cacheCoherent c) (h : cacheLoad c t = some m) : m = metaOf t := by
  unfold cacheLoad at h
  cases hf : List.find? (fun p => p.1 = t) c with
  | none => simp [hf] at h
  | some p =>
    simp only [hf, Option.map_some'] at h
    have hmem := List.mem_of_find?_eq_some hf
    have hkey := List.find?_some hf
    have ht : p.1 = t := by simpa using hkey
    have hm : p.2 = m := Option.some.inj h
    rw [← hm, hc p hmem, ht]

/-! ## The HTTP request, as the binders see it -/

/-- The parts of `*http.Request` the binders read. `body = none`
models a request whose body is absent (`r.Body == nil` or
`r.Body == http.NoBody`, which `net/http` installs for an incoming
request whose body is literally empty). `basicAuth` is the
already-decoded result of `r.BasicAuth()`. `postForm` is the parsed
body form data (`r.PostForm`). -/
structure Request where
  pathParams : List (String × String)
  rawQuery : String
  contentType : String
  body : Option String
  basicAuth : Option (String × String)
  postForm : List (String × List String)

/-- `r.PathValue(name)`: the route-match value, `""` when absent. -/
def pathValue (r : Request) (k : String) : String :=
  match r.pathParams.find? (fun p => p.1 = k) with
  | some p => p.2
  | none => ""

/-- `r.Form` after `ParseForm`: body form values first, then the URL
query values appended (as `net/http` does). -/
def mergedForm (r : Request) : List (String × List String) :=
  r.postForm ++ parseQuery r.rawQuery

/-! ## A small JSON model

`encoding/json` restricted to what the destination types of this
development need: one flat object with string values. String escapes
are not modelled (no input here contains any). -/

def skipWs : List Char → List Char
  | [] => []
  | c :: cs => if c = ' ' ∨ c = '\n' ∨ c = '\t' ∨ c = '\r' then skipWs cs else c :: cs

/-- Parse a JSON string literal after its opening quote has been
consumed: characters up to the closing quote. -/
def parseJStringAux : List Char → Option (List Char × List Char)
  | [] => none
  | c :: cs =>
    if c = '"' then some ([], cs)
    else (parseJStringAux cs).map (fun p => (c :: p.1, p.2))

/-- The members of a JSON object, after the opening `{`. `fuel` bounds
the recursion by the input length. -/
def parseJMembers (fuel : Nat) (cs : List Char) (first : Bool) :
    Option (List (String × String) × List Char) :=
  match fuel with
  | 0 => none
  | fuel + 1 =>
    let cs := skipWs cs
    match cs with
    | '\x7d' :: rest => if first then some ([], rest) else none
    | _ =>
      let cs := if first then cs else
        match cs with
        | ',' :: rest => skipWs rest
        | _ => []
      match cs with
      | '"' :: rest =>
        match parseJStringAux rest with
        | none => none
        | some (k, rest) =>
          match skipWs rest with
          | ':' :: rest =>
            match skipWs rest with
            | '"' :: rest =>
              match parseJStringAux rest with
              | none => none
              | some (v, rest) =>
                let rest' := skipWs rest
                match rest' with
                | '\x7d' :: tail => some ([(⟨k⟩, ⟨v⟩)], tail)
                | ',' :: _ =>
                  (parseJMembers fuel rest' false).map
                    (fun p => ((⟨k⟩, ⟨v⟩) :: p.1, p.2))
                | _ => none
            | _ => none
          | _ => none
      | _ => none

/-- Parse one JSON value (a flat object) and return the unconsumed
remainder, as `json.Decoder.Decode` reads one value off the stream. -/
def parseJsonObj (s : String) : Option (List (String × String) × List Char) :=
  match skipWs s.data with
  | '\x7b' :: rest => parseJMembers (s.data.length + 1) rest true
  | _ => none

/-! ## Binder implementations

Each Go binder's `Bind` body, parameterised by the struct metadata and
by the type-specific decoding step (the work `gorilla/schema` /
`encoding/json` do per destination type). -/

/-- `PathBinder.Bind`: collect non-empty path values for the
descriptor's `pathFields` under their schema keys; nothing staged is a
no-op; otherwise run the schema decoder on the staged map. -/
def pathBinderBind (meta : StructMeta)
    (dec : List (String × List String) → σ → Except String σ)
    (r : Request) (v : σ) : Except String σ :=
  if meta.pathFields.isEmpty then .ok v
  else
    let values := meta.pathFields.foldl
      (fun acc info =>
        let pv := pathValue r info.pathKey
        if pv ≠ "" then acc ++ [(info.schemaKey, [pv])] else acc) []
    if values.isEmpty then .ok v
    else dec values v

/-- `QueryBinder.Bind`: `SchemaDecoder.Decode(v, r.URL.Query())`. -/
def queryBinderBind (dec : List (String × List String) → σ → Except String σ)
    (r : Request) (v : σ) : Except String σ :=
  dec (parseQuery r.rawQuery) v

/-- `QueryBinder.Match`: the URL carries a query string. -/
def queryBinderMatch (r : Request) : Bool := !(r.rawQuery = "")

/-- `JsonBinder.Match`: the content type declares JSON. -/
def jsonBinderMatch (r : Request) : Bool := strStarts r.contentType "application/json"

/-- `JsonBinder.Bind`: a nil/`http.NoBody` body is a no-op; otherwise
decode one JSON value into the record (the type-specific `dec` also
enforces `DisallowUnknownFields`) and reject trailing data
(`decoder.More()`). -/
def jsonBinderBind (disallowUnknownFields : Bool)
    (dec : Bool → List (String × String) → σ → Except String σ)
    (r : Request) (v : σ) : Except String σ :=
  match r.body with
  | none => .ok v
  | some s =>
    match parseJsonObj s with
    | none => .error "bind json error: invalid JSON"
    | some (pairs, rest) =>
      if !(skipWs rest).isEmpty then
        .error "bind json error: unexpected extra data in body"
      else dec disallowUnknownFields pairs v

/-- `FormBinder.Match`: URL-encoded or multipart content type. -/
def formBinderMatch (r : Request) : Bool :=
  strStarts r.contentType "application/x-www-form-urlencoded"
    || strStarts r.contentType "multipart/form-data"

/-- `FormBinder.Bind` for a type with no file fields: after
`ParseMultipartForm`, decode `r.Form` — the *merged* body+query map —
through the schema decoder. (File-field assignment and parse failures
of malformed form bodies are outside the claims of this development.) -/
def formBinderBind (dec : List (String × List String) → σ → Except String σ)
    (r : Request) (v : σ) : Except String σ :=
  dec (mergedForm r) v

/-- `ClientAuthBinder.Match`: an `Authorization: Basic …` header. -/
def clientAuthMatch (r : Request) : Bool := r.basicAuth.isSome

/-- `ClientAuthBinder.Bind` (`part_012` lines 22–59): the record is
modelled as a total assignment of string fields by index (every field
settable). Fill `clientIDIdx` from the username and `clientSecretIdx`
from the password, each only when the descriptor names the field and
the field currently holds the empty string. -/
def clientAuthBind (meta : StructMeta) (r : Request) (v : Nat → String) :
    Except String (Nat → String) :=
  match r.basicAuth with
  | none => .ok v
  | some (uid, pwd) =>
    let v₁ :=
      if meta.clientIDIdx ≠ -1 ∧ uid ≠ "" ∧ v meta.clientIDIdx.toNat = "" then
        Function.update v meta.clientIDIdx.toNat uid
      else v
    let v₂ :=
      if meta.clientSecretIdx ≠ -1 ∧ pwd ≠ "" ∧ v₁ meta.clientSecretIdx.toNat = "" then
        Function.update v₁ meta.clientSecretIdx.toNat pwd
      else v₁
    .ok v₂

/-! ## Concrete destination types

One Lean structure per Go destination struct appearing in the claims,
each with its field list (as `reflect` reports it) and its
type-specialised schema/JSON decoding steps. -/

/-- `struct { Name string `form:"name" json:"name"` }`. -/
structure NameRec where
  name : String
deriving DecidableEq, Repr

def nameRecFields : List FieldSpec :=
  [⟨"Name", "name", "name", "", true, .tstring⟩]

def nameRecMeta : StructMeta := parseFields nameRecFields

/-- `SchemaDecoder.Decode` specialised to `NameRec`: the alias tag
`form` names the field `name`; unknown keys are ignored
(`IgnoreUnknownKeys(true)`); a scalar field takes the first value of
its key (no key in this development carries more than one value). -/
def schemaDecodeNameRec (m : List (String × List String)) (v : NameRec) :
    Except String NameRec :=
  match formGet m "name" with
  | [] => .ok v
  | x :: _ => .ok ⟨x⟩

/-- `encoding/json` object decoding specialised to `NameRec`: member
`name` sets the field; an unrecognised member errors under
`DisallowUnknownFields` and is skipped otherwise. -/
def jsonDecodeNameRec : Bool → List (String × String) → NameRec → Except String NameRec
  | _, [], v => .ok v
  | strict, (k, x) :: rest, v =>
    if k = "name" then jsonDecodeNameRec strict rest ⟨x⟩
    else if strict then .error ("bind json error: unknown field " ++ k)
    else jsonDecodeNameRec strict rest v

/-- `struct { ID int `path:"id"` }`. -/
structure ItemRec where
  ID : Int
deriving DecidableEq, Repr

def itemRecFields : List FieldSpec :=
  [⟨"ID", "", "", "id", true, .tint⟩]

def itemRecMeta : StructMeta := parseFields itemRecFields

/-- `SchemaDecoder.Decode` specialised to `ItemRec`: no `form` tag, so
the schema key is the field name `ID`; the value must convert to an
integer, otherwise decoding reports a conversion error. -/
def schemaDecodeItemRec (m : List (String × List String)) (v : ItemRec) :
    Except String ItemRec :=
  match formGet m "ID" with
  | [] => .ok v
  | x :: _ =>
    match parseGoInt x with
    | some n => .ok ⟨n⟩
    | none => .error ("schema: error converting value for \"ID\": " ++ x)

/-- `struct { Secret string `json:"-"` }`: no `form` tag, json
tag `-`. -/
structure SecretRec where
  Secret : String
deriving DecidableEq, Repr

def secretRecFields : List FieldSpec :=
  [⟨"Secret", "", "-", "", true, .tstring⟩]

/-- `SchemaDecoder.Decode` specialised to `SecretRec`:
`gorilla/schema` reads only its alias tag `form` — absent here — and
falls back to the declared field name `Secret`; the `json` tag plays
no part in schema decoding. -/
def schemaDecodeSecretRec (m : List (String × List String)) (v : SecretRec) :
    Except String SecretRec :=
  match formGet m "Secret" with
  | [] => .ok v
  | x :: _ => .ok ⟨x⟩

/-- `struct { A string `form:"a"` }`. -/
structure FormRec where
  A : String
deriving DecidableEq, Repr

def schemaDecodeFormRec (m : List (String × List String)) (v : FormRec) :
    Except String FormRec :=
  match formGet m "a" with
  | [] => .ok v
  | x :: _ => .ok ⟨x⟩

/-! ## The default binder chain for `NameRec` (`Binders`, `binder.go`) -/

def pathBinderN : BinderI Request NameRec :=
  ⟨"path", BinderMeta, fun _ => true, pathBinderBind nameRecMeta schemaDecodeNameRec⟩

def queryBinderN : BinderI Request NameRec :=
  ⟨"query", BinderMeta, queryBinderMatch, queryBinderBind schemaDecodeNameRec⟩

def jsonBinderN : BinderI Request NameRec :=
  ⟨"json", BinderBody, jsonBinderMatch, jsonBinderBind true jsonDecodeNameRec⟩

def formBinderN : BinderI Request NameRec :=
  ⟨"form", BinderBody, formBinderMatch, formBinderBind schemaDecodeNameRec⟩

/-- The package-global default chain
`[PathBinder, QueryBinder, JsonBinder{DisallowUnknownFields: true},
FormBinder{MaxMemory: DefaultMultipartMemory}]`, at type `NameRec`. -/
def BindersNameRec : List (BinderI Request NameRec) :=
  [pathBinderN, queryBinderN, jsonBinderN, formBinderN]

/-! ## The request pipeline (`prepare`, `httpx.go` lines 110–162) -/

/-- A binder error as `prepare` inspects it. `maxBytes` is the
`*http.MaxBytesError` produced when the `MaxBytesReader` ceiling is
hit; `wrap` models `fmt.Errorf("…: %w", err)`, through which
`errors.As` still finds the `MaxBytesError`. -/
inductive BindError where
  | maxBytes : BindError
  | plain : String → BindError
  | wrap : String → BindError → BindError
deriving DecidableEq, Repr

/-- `errors.As(err, &maxBytesErr)`: unwraps the chain. -/
def isMaxBytesErr : BindError → Bool
  | .maxBytes => true
  | .plain _ => false
  | .wrap _ e => isMaxBytesErr e

/-- `err.Error()`. -/
def bindErrMsg : BindError → String
  | .maxBytes => "http: request body too large"
  | .plain m => m
  | .wrap p e => p ++ bindErrMsg e

/-- `HttpError` from `error.go`. -/
structure HttpError where
  HttpCode : Nat
  BizCode : String
  Msg : String
deriving DecidableEq, Repr

/-- `ErrRequestEntityTooLarge` from `error.go` line 59. -/
def ErrRequestEntityTooLarge : HttpError :=
  ⟨413, "REQUEST_ENTITY_TOO_LARGE", "Request Entity Too Large"⟩

/-- What `prepare` hands on: an error funnelled to `errFunc`, or the
business result. -/
inductive PrepOutcome (β : Type) where
  | failure : HttpError → PrepOutcome β
  | success : β → PrepOutcome β
deriving DecidableEq, Repr

/-- The decision logic of `prepare` (`httpx.go` lines 110–162), after
the body-reading effects are abstracted into the outcomes of its three
stages: the bind result, the validator and the business function.
Mirrors steps 2–4: a bind error that `errors.As`-matches
`*http.MaxBytesError` (with a positive ceiling configured) yields
`ErrRequestEntityTooLarge`; any other bind error yields a 400 carrying
`err.Error()`; a validation error and a business error pass through
unchanged. -/
def prepare (maxBodySize : Int) (bindRes : Except BindError α)
    (validate : α → Option HttpError) (fn : α → Except HttpError β) :
    PrepOutcome β :=
  match bindRes with
  | .error err =>
    if maxBodySize > 0 ∧ isMaxBytesErr err then
      .failure ErrRequestEntityTooLarge
    else
      .failure ⟨400, "", bindErrMsg err⟩
  | .ok req =>
    match validate req with
    | some e => .failure e
    | none =>
      match fn req with
      | .error e => .failure e
      | .ok res => .success res

/-! ## Claims -/

/-- C1: in every invocation of `Bind`, at most one Body-kind binder
executes; once a Body binder has run, later Body binders are skipped
even if their `Match` is true (the executed Body binder, if any, is
the first matching one), while every matching Metadata-kind binder
executes (witnessed on the success path, where no abort cuts the loop
short). -/
theorem claim_C1_body_mutual_exclusion (r : ρ) (bs defaults : List (BinderI ρ σ)) (v : σ)
    (hne : bs ≠ []) :
    Bind defaults r v bs = (bindTrace r bs false v).2
    ∧ (bindTrace r bs false v).1.countP (fun b => decide (b.type = BinderBody)) ≤ 1
    ∧ (((bindTrace r bs false v).2).isOk = true →
        (bindTrace r bs false v).1.filter (fun b => decide (b.type = BinderMeta))
          = bs.filter (fun b => b.Match r && decide (b.type = BinderMeta))
        ∧ (bindTrace r bs false v).1.filter (fun b => decide (b.type = BinderBody))
          = (bs.filter (fun b => b.Match r && decide (b.type = BinderBody))).take 1) := by
  have hE : bs.isEmpty = false := by
    cases bs with
    | nil => exact absurd rfl hne
    | cons b l => rfl
  refine ⟨?_, ?_, fun hok => ⟨bindTrace_meta_all r bs false v hok, ?_⟩⟩
  · simp [Bind, hE, bindTrace_snd]
  · simpa using bindTrace_body_count r bs false v
  · simpa using bindTrace_body_first r bs false v hok

def c1metaB : BinderI Unit Nat := ⟨"m", BinderMeta, fun _ => true, fun _ v => .ok (v + 1)⟩
def c1bodyA : BinderI Unit Nat := ⟨"bA", BinderBody, fun _ => true, fun _ v => .ok (v * 2)⟩
def c1bodyB : BinderI Unit Nat := ⟨"bB", BinderBody, fun _ => true, fun _ v => .ok (v + 7)⟩

theorem claim_C1_witness :
    (bindTrace () [c1metaB, c1bodyA, c1bodyB] false 0).1.countP
      (fun b => decide (b.type = BinderBody)) ≤ 1 :=
  (claim_C1_body_mutual_exclusion () [c1metaB, c1bodyA, c1bodyB] [] 0 (by simp)).2.1

/-- C2: the first binder whose `Bind` returns an error makes the
orchestrator return that same error immediately: the execution trace
ends at that binder, so no later binder in the list executes and no
fallback occurs. -/
theorem claim_C2_first_error_aborts (r : ρ) (l₁ l₂ : List (BinderI ρ σ))
    (b : BinderI ρ σ) (defaults : List (BinderI ρ σ)) (v v₁ : σ)
    (t₁ : List (BinderI ρ σ)) (e : String)
    (h₁ : bindTrace r l₁ false v = (t₁, .ok v₁))
    (hm : b.Match r = true)
    (hns : (decide (b.type = BinderBody)
      && t₁.any (fun x => decide (x.type = BinderBody))) = false)
    (hb : b.Bind r v₁ = .error e) :
    Bind defaults r v (l₁ ++ b :: l₂) = .error e
    ∧ bindTrace r (l₁ ++ b :: l₂) false v = (t₁ ++ [b], .error e) := by
  have hnskip : ¬(b.type = BinderBody ∧
      (false || t₁.any (fun x => decide (x.type = BinderBody))) = true) := by
    intro hcontra
    rw [Bool.false_or] at hcontra
    simp only [hcontra.1, decide_eq_true_eq] at hns
    simp [hcontra.2] at hns
  have htr : bindTrace r (l₁ ++ b :: l₂) false v = (t₁ ++ [b], .error e) := by
    rw [bindTrace_append, h₁]
    simp only
    rw [bindTrace_cons_err l₂ (false || t₁.any (fun x => decide (x.type = BinderBody)))
      v₁ e hm hnskip hb]
  refine ⟨?_, htr⟩
  have hE : (l₁ ++ b :: l₂).isEmpty = false := by
    cases l₁ <;> rfl
  have := bindTrace_snd r (l₁ ++ b :: l₂) false v
  rw [htr] at this
  simp [Bind, hE, ← this]

def c2ok : BinderI Unit Nat := ⟨"q", BinderMeta, fun _ => true, fun _ v => .ok (v + 1)⟩
def c2err : BinderI Unit Nat := ⟨"j", BinderBody, fun _ => true, fun _ _ => .error "boom"⟩
def c2late : BinderI Unit Nat := ⟨"f", BinderBody, fun _ => true, fun _ v => .ok (v * 3)⟩

theorem claim_C2_witness :
    Bind ([] : List (BinderI Unit Nat)) () 0 ([c2ok] ++ c2err :: [c2late]) = .error "boom" :=
  (claim_C2_first_error_aborts () [c2ok] [c2late] c2err [] 0 1 [c2ok] "boom"
    rfl rfl rfl rfl).1

/-- C5: with a positive body-size ceiling configured, a bind failure
that `errors.As`-matches the `MaxBytesReader` error surfaces
`ErrRequestEntityTooLarge` (413); a bind failure of any other kind
surfaces a 400 `HttpError` carrying the binder error's own message. -/
theorem claim_C5_bind_error_mapping (maxBodySize : Int) (err : BindError)
    (validate : α → Option HttpError) (fn : α → Except HttpError β)
    (hpos : maxBodySize > 0) :
    (isMaxBytesErr err = true →
      prepare maxBodySize (.error err) validate fn = .failure ErrRequestEntityTooLarge)
    ∧ (isMaxBytesErr err = false →
      prepare maxBodySize (.error err) validate fn = .failure ⟨400, "", bindErrMsg err⟩) := by
  constructor <;> intro h <;> simp [prepare, h, hpos]

theorem claim_C5_witness :
    prepare 2097152 (.error (.wrap "parse form error: " .maxBytes))
      (fun _ : Unit => (none : Option HttpError)) (fun _ => Except.ok ())
      = .failure ErrRequestEntityTooLarge
    ∧ prepare 2097152 (.error (.plain "bind json error: invalid JSON"))
      (fun _ : Unit => (none : Option HttpError)) (fun _ => Except.ok ())
      = .failure ⟨400, "", "bind json error: invalid JSON"⟩ :=
  ⟨(claim_C5_bind_error_mapping 2097152 (.wrap "parse form error: " .maxBytes)
      (fun _ : Unit => none) (fun _ => Except.ok ()) (by decide)).1 rfl,
   (claim_C5_bind_error_mapping 2097152 (.plain "bind json error: invalid JSON")
      (fun _ : Unit => none) (fun _ => Except.ok ()) (by decide)).2 rfl⟩

/-- C6: for a request whose content type declares JSON and whose body
is literally empty (`r.Body == nil || r.Body == http.NoBody`, the
state `net/http` gives an incoming request with an empty body), the
JSON binder succeeds and leaves the record untouched. -/
theorem claim_C6_empty_json_body_noop (r : Request) (v : σ) (strict : Bool)
    (dec : Bool → List (String × String) → σ → Except String σ)
    (_hct : jsonBinderMatch r = true) (hbody : r.body = none) :
    jsonBinderBind strict dec r v = .ok v := by
  simp [jsonBinderBind, hbody]

theorem claim_C6_witness :
    jsonBinderBind true jsonDecodeNameRec
      ⟨[], "", "application/json", none, none, []⟩ ⟨"keep"⟩ = .ok ⟨"keep"⟩ :=
  claim_C6_empty_json_body_noop ⟨[], "", "application/json", none, none, []⟩
    ⟨"keep"⟩ true jsonDecodeNameRec rfl rfl

/-! ### C3: key resolution in `getStructMeta` -/

/-- The `mapKey` computed by the field loop equals the spec's
`resolvedKey` for every field the loop does not skip. -/
theorem codeMapKey_eq_resolvedKey (f : FieldSpec) :
    (if (if truncComma f.formTag = "" then truncComma f.jsonTag
          else truncComma f.formTag) = ""
      then f.fname
      else if truncComma f.formTag = "" then truncComma f.jsonTag
        else truncComma f.formTag)
    = resolvedKey f := by
  unfold resolvedKey
  by_cases h₁ : truncComma f.formTag = ""
  · by_cases h₂ : truncComma f.jsonTag = "" <;> simp [h₁, h₂]
  · simp [h₁]

theorem parseFieldStep_formKeys (i : Nat) (f : FieldSpec) (meta : StructMeta) :
    (parseFieldStep i f meta).formKeys =
      meta.formKeys ++ (if fieldIncluded f then [resolvedKey f] else []) := by
  unfold parseFieldStep fieldIncluded
  by_cases he : f.exported
  · by_cases hd : truncComma f.formTag = "-"
    · simp [he, hd]
    · rw [← codeMapKey_eq_resolvedKey f]
      simp [he, hd]
  · simp [he]

theorem parseFieldStep_pathFields (i : Nat) (f : FieldSpec) (meta : StructMeta) :
    (parseFieldStep i f meta).pathFields =
      meta.pathFields ++
        (if fieldIncluded f && !(f.pathTag = "") then [⟨i, f.pathTag, resolvedKey f⟩]
          else []) := by
  unfold parseFieldStep fieldIncluded
  by_cases he : f.exported
  · by_cases hd : truncComma f.formTag = "-"
    · simp [he, hd]
    · rw [← codeMapKey_eq_resolvedKey f]
      by_cases hp : f.pathTag = "" <;> simp [he, hd, hp]
  · simp [he]

theorem parseFieldsAux_formKeys (fs : List FieldSpec) (i : Nat) (meta : StructMeta) :
    (parseFieldsAux i meta fs).formKeys =
      meta.formKeys ++ (fs.filter fieldIncluded).map resolvedKey := by
  induction fs generalizing i meta with
  | nil => simp [parseFieldsAux]
  | cons f rest ih =>
    simp only [parseFieldsAux, List.filter_cons]
    rw [ih, parseFieldStep_formKeys]
    by_cases hf : fieldIncluded f <;> simp [hf]

theorem parseFieldsAux_pathFields (fs : List FieldSpec) (i : Nat) (meta : StructMeta) :
    (parseFieldsAux i meta fs).pathFields =
      meta.pathFields ++ specPathFields i fs := by
  induction fs generalizing i meta with
  | nil => simp [parseFieldsAux, specPathFields]
  | cons f rest ih =>
    simp only [parseFieldsAux, specPathFields]
    rw [ih, parseFieldStep_pathFields]
    by_cases hf : fieldIncluded f && !(f.pathTag = "") <;> simp [hf]

/-- C3 counterexample: the claim "whenever the resolved key equals the
ignore marker `-`, the field is excluded from every source" is false.
A field with no `form` tag and `json:"-"` resolves to key `-`, yet the
field loop records it (its `form` tag is not `-`), and the Query
binder — whose schema decoding keys on the `form` tag or the field
name, never the `json` tag — binds the field from `?Secret=x`. -/
theorem claim_C3_counterexample :
    resolvedKey ⟨"Secret", "", "-", "", true, .tstring⟩ = "-"
    ∧ (parseFields secretRecFields).formKeys = ["-"]
    ∧ queryBinderBind schemaDecodeSecretRec ⟨[], "Secret=x", "", none, none, []⟩ ⟨""⟩
        = .ok ⟨"x"⟩ :=
  ⟨rfl, rfl, rfl⟩

/-- C3 (amended): for every destination type, the recorded source key
of each descriptor entry follows the precedence form tag (first
comma-segment) → json tag (first comma-segment) → declared field name;
and a field is excluded from the descriptor exactly when it is
unexported or its *form* tag's first comma-segment is the ignore
marker `-` — a resolved key of `-` arising from the json tag does not
exclude the field. -/
theorem claim_C3_key_resolution (fs : List FieldSpec) :
    (parseFields fs).formKeys = (fs.filter fieldIncluded).map resolvedKey
    ∧ (parseFields fs).pathFields = specPathFields 0 fs := by
  unfold parseFields
  rw [parseFieldsAux_formKeys, parseFieldsAux_pathFields]
  exact ⟨rfl, rfl⟩

/-- The request of C4: query `?name=alice`, JSON content type, body
`{"name":"bob"}`. -/
def c4req : Request :=
  ⟨[], "name=alice", "application/json", some "\x7b\"name\":\"bob\"\x7d", none, []⟩

/-- C4: with both a query parameter and a JSON body setting the key
`name` and the default binder order [Path, Query, JSON, Form], the
JSON body's value is the one left in the record: the chain yields
`name = "bob"`, while the Query binder alone (non-JSON content type,
same query) would have yielded `"alice"`. -/
theorem claim_C4_json_wins :
    Bind BindersNameRec c4req ⟨""⟩ [] = .ok ⟨"bob"⟩
    ∧ queryBinderBind schemaDecodeNameRec c4req ⟨""⟩ = .ok ⟨"alice"⟩ := by
  constructor <;> rfl

/-- C7: for destination `struct { ID int `path:"id"` }`, a
request routed with path value `id = "42"` yields `ID = 42`; any
non-empty, non-numeric path value makes the Path binder return the
schema decoder's conversion error (the Lean model is total, so no
panic is possible). -/
theorem claim_C7_path_int_binding (s : String)
    (hne : s ≠ "") (hnum : parseGoInt s = none) :
    pathBinderBind itemRecMeta schemaDecodeItemRec
      ⟨[("id", "42")], "", "", none, none, []⟩ ⟨0⟩ = .ok ⟨42⟩
    ∧ pathBinderBind itemRecMeta schemaDecodeItemRec
      ⟨[("id", s)], "", "", none, none, []⟩ ⟨0⟩
        = .error ("schema: error converting value for \"ID\": " ++ s) := by
  constructor
  · rfl
  · have hpv : pathValue ⟨[("id", s)], "", "", none, none, []⟩ "id" = s := by
      simp [pathValue]
    simp only [pathBinderBind, itemRecMeta]
    rw [show (parseFields itemRecFields).pathFields = [⟨0, "id", "ID"⟩] from rfl]
    simp only [List.isEmpty_cons, Bool.false_eq_true, if_false, List.foldl, hpv,
      if_pos hne]
    simp [schemaDecodeItemRec, formGet, hnum]

theorem claim_C7_witness :
    ("abc" : String) ≠ "" ∧ parseGoInt "abc" = none
    ∧ (pathBinderBind itemRecMeta schemaDecodeItemRec
        ⟨[("id", "42")], "", "", none, none, []⟩ ⟨0⟩ = .ok ⟨42⟩
      ∧ pathBinderBind itemRecMeta schemaDecodeItemRec
        ⟨[("id", "abc")], "", "", none, none, []⟩ ⟨0⟩
          = .error ("schema: error converting value for \"ID\": " ++ "abc")) :=
  ⟨by decide, rfl, claim_C7_path_int_binding "abc" (by decide) rfl⟩

/-- C8: descriptor computation is deterministic and idempotent. On any
coherent cache state: (1) `getStructMeta` returns exactly the pure
analysis of the (dereferenced) type — a function of the type alone,
reading nothing from any request; (2) coherence is preserved; (3) a
stored entry never changes once present; (4) in the interleaving where
two callers both compute before either stores, `LoadOrStore` keeps the
first store and both callers get content-equal descriptors. -/
theorem claim_C8_descriptor_idempotent (c : MetaCache) (t : GoType)
    (hc : cacheCoherent c) :
    (getStructMeta c t).1 = metaOf (if t.isPtr then derefGoType t else t)
    ∧ cacheCoherent (getStructMeta c t).2
    ∧ (∀ u m, cacheLoad c u = some m → cacheLoad (getStructMeta c t).2 u = some m)
    ∧ (∀ m₁ m₂, m₁ = metaOf (if t.isPtr then derefGoType t else t) →
        m₂ = metaOf (if t.isPtr then derefGoType t else t) →
        (cacheLoadOrStore c (if t.isPtr then derefGoType t else t) m₁).1
          = (cacheLoadOrStore
              (cacheLoadOrStore c (if t.isPtr then derefGoType t else t) m₁).2
              (if t.isPtr then derefGoType t else t) m₂).1
          ∧ (cacheLoadOrStore c (if t.isPtr then derefGoType t else t) m₁).1 = m₁) := by
  set t' := if t.isPtr then derefGoType t else t with ht'
  have hmeta : (match t'.fields with
      | some fs => parseFields fs
      | none => emptyMeta) = metaOf t' := rfl
  refine ⟨?_, ?_, ?_, ?_⟩
  · unfold getStructMeta
    rw [← ht']
    cases hl : cacheLoad c t' with
    | some v =>
      simp only [hl]
      exact cacheLoad_coherent hc hl
    | none => simp [cacheLoadOrStore, hl, hmeta]
  · unfold getStructMeta
    rw [← ht']
    cases hl : cacheLoad c t' with
    | some v =>
      simp only [hl]
      exact hc
    | none =>
      simp only [hl, cacheLoadOrStore, hmeta]
      intro p hp
      cases hp with
      | head => rfl
      | tail _ hmem => exact hc p hmem
  · intro u m hm
    unfold getStructMeta
    rw [← ht']
    cases hl : cacheLoad c t' with
    | some v =>
      simp only [hl]
      exact hm
    | none =>
      simp only [hl, cacheLoadOrStore]
      have hne : ¬ (t' = u) := by
        intro he
        rw [he] at hl
        rw [hl] at hm
        exact Option.noConfusion hm
      unfold cacheLoad at hm ⊢
      rw [List.find?_cons_of_neg]
      · exact hm
      · simpa using hne
  · intro m₁ m₂ h₁ h₂
    subst h₁
    subst h₂
    cases hl : cacheLoad c t' with
    | some v =>
      have hv := cacheLoad_coherent hc hl
      simp [cacheLoadOrStore, hl, hv]
    | none =>
      have hsecond : cacheLoad ((t', metaOf t') :: c) t' = some (metaOf t') := by
        unfold cacheLoad
        rw [List.find?_cons_of_pos]
        · rfl
        · simp
      constructor
      · simp [cacheLoadOrStore, hl, hsecond]
      · simp [cacheLoadOrStore, hl]

def c8ty : GoType := ⟨false, some nameRecFields⟩

theorem claim_C8_witness :
    (getStructMeta [] c8ty).1 = metaOf c8ty :=
  (claim_C8_descriptor_idempotent [] c8ty (by intro p hp; cases hp)).1

/-- C9: for a request carrying Basic credentials, the client-credential
binder assigns the username to the client-id field and the password to
the client-secret field only when the descriptor names that field and
it currently holds `""`; a non-empty field is left unchanged, and no
field outside these two is modified. (The index hypotheses state that
the descriptor's indices are `-1` or genuine field indices, as
`getStructMeta` always produces.) -/
theorem claim_C9_client_auth_frame (meta : StructMeta) (r : Request)
    (uid pwd : String) (v : Nat → String)
    (hauth : r.basicAuth = some (uid, pwd))
    (hid : meta.clientIDIdx = -1 ∨ 0 ≤ meta.clientIDIdx)
    (hsec : meta.clientSecretIdx = -1 ∨ 0 ≤ meta.clientSecretIdx) :
    ∃ v', clientAuthBind meta r v = .ok v'
      ∧ (∀ i : Nat, (i : Int) ≠ meta.clientIDIdx → (i : Int) ≠ meta.clientSecretIdx →
          v' i = v i)
      ∧ (∀ i : Nat, v i ≠ "" → v' i = v i)
      ∧ (∀ i : Nat, (i : Int) = meta.clientIDIdx → v i = "" → uid ≠ "" → v' i = uid)
      ∧ (∀ i : Nat, (i : Int) = meta.clientSecretIdx → (i : Int) ≠ meta.clientIDIdx →
          v i = "" → pwd ≠ "" → v' i = pwd) := by
  set v₁ := if meta.clientIDIdx ≠ -1 ∧ uid ≠ "" ∧ v meta.clientIDIdx.toNat = "" then
      Function.update v meta.clientIDIdx.toNat uid
    else v with hv₁
  set v₂ := if meta.clientSecretIdx ≠ -1 ∧ pwd ≠ "" ∧ v₁ meta.clientSecretIdx.toNat = "" then
      Function.update v₁ meta.clientSecretIdx.toNat pwd
    else v₁ with hv₂
  have h1 : ∀ i : Nat, (i : Int) ≠ meta.clientIDIdx → v₁ i = v i := by
    intro i hi
    rw [hv₁]
    split_ifs with hC
    · have h0 : 0 ≤ meta.clientIDIdx := hid.resolve_left hC.1
      have : i ≠ meta.clientIDIdx.toNat := by omega
      exact Function.update_noteq this uid v
    · rfl
  have h1' : ∀ i : Nat, v i ≠ "" → v₁ i = v i := by
    intro i hi
    rw [hv₁]
    split_ifs with hC
    · have : i ≠ meta.clientIDIdx.toNat := by
        intro he
        rw [he] at hi
        exact hi hC.2.2
      exact Function.update_noteq this uid v
    · rfl
  have h2 : ∀ i : Nat, (i : Int) ≠ meta.clientSecretIdx → v₂ i = v₁ i := by
    intro i hi
    rw [hv₂]
    split_ifs with hC
    · have h0 : 0 ≤ meta.clientSecretIdx := hsec.resolve_left hC.1
      have : i ≠ meta.clientSecretIdx.toNat := by omega
      exact Function.update_noteq this pwd v₁
    · rfl
  have h2' : ∀ i : Nat, v₁ i ≠ "" → v₂ i = v₁ i := by
    intro i hi
    rw [hv₂]
    split_ifs with hC
    · have : i ≠ meta.clientSecretIdx.toNat := by
        intro he
        rw [he] at hi
        exact hi hC.2.2
      exact Function.update_noteq this pwd v₁
    · rfl
  refine ⟨v₂, ?_, ?_, ?_, ?_, ?_⟩
  · unfold clientAuthBind
    rw [hauth]
  · intro i hiID hiSec
    rw [h2 i hiSec, h1 i hiID]
  · intro i hne
    have hδ := h1' i hne
    rw [h2' i (hδ ▸ hne), hδ]
  · intro i hiID hzero hu
    have hC : meta.clientIDIdx ≠ -1 ∧ uid ≠ "" ∧ v meta.clientIDIdx.toNat = "" := by
      refine ⟨by omega, hu, ?_⟩
      have : meta.clientIDIdx.toNat = i := by omega
      rw [this]
      exact hzero
    have hvi : v₁ i = uid := by
      rw [hv₁, if_pos hC]
      have : meta.clientIDIdx.toNat = i := by omega
      rw [this]
      exact Function.update_same i uid v
    rw [h2' i (by rw [hvi]; exact hu), hvi]
  · intro i hiSec hiID hzero hp
    have hvi : v₁ i = "" := by
      rw [h1 i hiID]
      exact hzero
    have hC : meta.clientSecretIdx ≠ -1 ∧ pwd ≠ "" ∧ v₁ meta.clientSecretIdx.toNat = "" := by
      refine ⟨by omega, hp, ?_⟩
      have : meta.clientSecretIdx.toNat = i := by omega
      rw [this]
      exact hvi
    rw [hv₂, if_pos hC]
    have : meta.clientSecretIdx.toNat = i := by omega
    rw [this]
    exact Function.update_same i pwd v₁

/-- The client-credential index hypotheses of the frame theorem hold
for every descriptor `getStructMeta` produces: the indices stay `-1`
or become genuine (non-negative) field indices. -/
theorem parseFields_client_indices_wf (fs : List FieldSpec) :
    ((parseFields fs).clientIDIdx = -1 ∨ 0 ≤ (parseFields fs).clientIDIdx)
    ∧ ((parseFields fs).clientSecretIdx = -1 ∨ 0 ≤ (parseFields fs).clientSecretIdx) := by
  have hstep : ∀ (i : Nat) (f : FieldSpec) (meta : StructMeta),
      (meta.clientIDIdx = -1 ∨ 0 ≤ meta.clientIDIdx) →
      (meta.clientSecretIdx = -1 ∨ 0 ≤ meta.clientSecretIdx) →
      ((parseFieldStep i f meta).clientIDIdx = -1 ∨ 0 ≤ (parseFieldStep i f meta).clientIDIdx)
      ∧ ((parseFieldStep i f meta).clientSecretIdx = -1
          ∨ 0 ≤ (parseFieldStep i f meta).clientSecretIdx) := by
    intro i f meta h₁ h₂
    unfold parseFieldStep
    by_cases he : f.exported
    · by_cases hd : truncComma f.formTag = "-"
      · simp only [he, hd]
        exact ⟨h₁, h₂⟩
      · simp only [he, hd, Bool.not_true, Bool.false_eq_true, if_false, if_neg hd]
        constructor <;> split_ifs <;>
          first
            | exact h₁
            | exact h₂
            | (right; exact Int.natCast_nonneg i)
    · simp only [he]
      exact ⟨h₁, h₂⟩
  suffices haux : ∀ (fs : List FieldSpec) (i : Nat) (meta : StructMeta),
      (meta.clientIDIdx = -1 ∨ 0 ≤ meta.clientIDIdx) →
      (meta.clientSecretIdx = -1 ∨ 0 ≤ meta.clientSecretIdx) →
      ((parseFieldsAux i meta fs).clientIDIdx = -1 ∨ 0 ≤ (parseFieldsAux i meta fs).clientIDIdx)
      ∧ ((parseFieldsAux i meta fs).clientSecretIdx = -1
          ∨ 0 ≤ (parseFieldsAux i meta fs).clientSecretIdx) by
    exact haux fs 0 emptyMeta (Or.inl rfl) (Or.inl rfl)
  intro fs
  induction fs with
  | nil =>
    intro i meta h₁ h₂
    exact ⟨h₁, h₂⟩
  | cons f rest ih =>
    intro i meta h₁ h₂
    have hs := hstep i f meta h₁ h₂
    exact ih (i + 1) (parseFieldStep i f meta) hs.1 hs.2

/-- The OAuth2 token-request destination type of C9:
`struct { CID string `form:"client_id"`;
CSec string `form:"client_secret"` }`. -/
def c9fields : List FieldSpec :=
  [⟨"CID", "client_id", "", "", true, .tstring⟩,
   ⟨"CSec", "client_secret", "", "", true, .tstring⟩]

def c9meta : StructMeta := parseFields c9fields

def c9req : Request := ⟨[], "", "", none, some ("alice-id", "s3cret"), []⟩

theorem claim_C9_witness :
    ∃ v', clientAuthBind c9meta c9req (fun _ => "") = .ok v'
      ∧ (∀ i : Nat, (i : Int) ≠ c9meta.clientIDIdx → (i : Int) ≠ c9meta.clientSecretIdx →
          v' i = (fun _ => "") i)
      ∧ (∀ i : Nat, (fun _ => "") i ≠ "" → v' i = (fun _ => "") i)
      ∧ (∀ i : Nat, (i : Int) = c9meta.clientIDIdx → (fun _ => "") i = "" →
          "alice-id" ≠ "" → v' i = "alice-id")
      ∧ (∀ i : Nat, (i : Int) = c9meta.clientSecretIdx → (i : Int) ≠ c9meta.clientIDIdx →
          (fun _ => "") i = "" → "s3cret" ≠ "" → v' i = "s3cret") :=
  claim_C9_client_auth_frame c9meta c9req "alice-id" "s3cret" (fun _ => "")
    rfl (by right; decide) (by right; decide)

/-- C10: whenever the Form/Multipart body binder executes, values
present only in the URL query string are decoded into the record as
well, because the binder decodes `r.Form`, the merged body+query map —
and this happens even on requests where the Query binder also matches
(the query string is non-empty). -/
theorem claim_C10_form_binder_reads_query (bodyPairs : List (String × List String))
    (v : FormRec) (hnoa : formGet bodyPairs "a" = []) :
    formBinderMatch
        ⟨[], "a=fromquery", "application/x-www-form-urlencoded", none, none, bodyPairs⟩ = true
    ∧ queryBinderMatch
        ⟨[], "a=fromquery", "application/x-www-form-urlencoded", none, none, bodyPairs⟩ = true
    ∧ formBinderBind schemaDecodeFormRec
        ⟨[], "a=fromquery", "application/x-www-form-urlencoded", none, none, bodyPairs⟩ v
        = .ok ⟨"fromquery"⟩ := by
  refine ⟨rfl, rfl, ?_⟩
  have hq : formGet (parseQuery "a=fromquery") "a" = ["fromquery"] := rfl
  have hmerge : formGet
      (mergedForm ⟨[], "a=fromquery", "application/x-www-form-urlencoded", none, none, bodyPairs⟩)
      "a" = ["fromquery"] := by
    unfold mergedForm formGet
    rw [List.filter_append, List.flatMap_append]
    unfold formGet at hnoa hq
    rw [hnoa, hq]
    rfl
  show schemaDecodeFormRec _ v = _
  unfold schemaDecodeFormRec
  rw [hmerge]

theorem claim_C10_witness :
    formGet [("b", ["1"])] "a" = []
    ∧ formBinderBind schemaDecodeFormRec
        ⟨[], "a=fromquery", "application/x-www-form-urlencoded", none, none, [("b", ["1"])]⟩
        ⟨""⟩ = .ok ⟨"fromquery"⟩ :=
  ⟨rfl, (claim_C10_form_binder_reads_query [("b", ["1"])] ⟨""⟩ rfl).2.2⟩

end Httpx
